import Mathlib

/-!
Verification of the MailSort email-triage system's specification.

The repository's `src/` holds only the browser dashboard
(`src/frontend/main.js`); the Email Triage Engine, Classifier Store and
Outcome Ledger described by the spec are not part of the listed files.
Definitions for those components are therefore modelled from the spec
(sections 3, 4.3, 4.4 and 8), each marked `Modelled from the spec:` in its
doc comment.  Definitions for the dashboard are shallow embeddings of
`src/frontend/main.js`.
-/

namespace MailSort

/-- Priority label, one of HIGH/MEDIUM/LOW (spec section 3). -/
inductive Label
  | HIGH
  | MEDIUM
  | LOW
deriving DecidableEq, Repr

/-- Modelled from the spec: the static FolderMap configuration
`{HIGH -> folder, MEDIUM -> folder, LOW -> folder}` (spec section 3), with the
folder names taken from the README's recommended environment values. -/
def folderMap : Label → String
  | Label.HIGH => "AI_HIGH_PRIORITY"
  | Label.MEDIUM => "AI_MEDIUM_PRIORITY"
  | Label.LOW => "AI_LOW_PRIORITY_RECOVERY"

/-- Modelled from the spec: an immutable message snapshot with its
mailbox-assigned `id`, text fields, receipt time and current folder
(spec section 3, "Message"). -/
structure Message where
  id : Nat
  subject : String
  summary : String
  receivedAt : Nat
  currentFolder : String
deriving DecidableEq, Repr

/-- Modelled from the spec: an OutcomeRecord
`{message-id, assigned-label, destination-folder, moved-at}` (spec section 3);
the `promoted` flag marks the PROMOTED side-branch state of the per-message
state machine (spec section 4.4), distinguishing `MOVED(label)` from
`PROMOTED(label)`. -/
structure OutcomeRecord where
  messageId : Nat
  assignedLabel : Label
  destinationFolder : String
  movedAt : Nat
  promoted : Bool
deriving DecidableEq, Repr

/-- Modelled from the spec: the engine-visible state, a mailbox snapshot
plus the Outcome Ledger (spec section 2). -/
structure EngineState where
  mailbox : List Message
  ledger : List OutcomeRecord
deriving DecidableEq, Repr

/-- Whether the Outcome Ledger already holds a record for a message id. -/
def inLedger (l : List OutcomeRecord) (id : Nat) : Bool :=
  l.any (fun r => r.messageId == id)

/-- Modelled from the spec: `search-since(date)` returns the messages received
on/after `date` (spec section 4.1); the mailbox list is kept in receipt order,
so filtering preserves the required ascending order. -/
def searchSince (d : Nat) (mb : List Message) : List Message :=
  mb.filter (fun m => d ≤ m.receivedAt)

/-- Modelled from the spec: `move(id, destination-folder)` relocates the
message with the given id (spec section 4.1); idempotent if already there. -/
def moveMsg (id : Nat) (dest : String) (mb : List Message) : List Message :=
  mb.map (fun m => if m.id == id then { m with currentFolder := dest } else m)

/-- Aggregate moved counts per label, as returned by Process
(spec section 6, `moved_counts`). -/
structure Counts where
  high : Nat
  medium : Nat
  low : Nat
deriving DecidableEq, Repr

/-- Increment the count of one label. -/
def bump (c : Counts) : Label → Counts
  | Label.HIGH => { c with high := c.high + 1 }
  | Label.MEDIUM => { c with medium := c.medium + 1 }
  | Label.LOW => { c with low := c.low + 1 }

/-- Modelled from the spec: the body of Process (spec section 4.4): for every
candidate id not already in the Outcome Ledger, drive it through
`NEW -> CLASSIFIED -> MOVED`: classify, move to `FolderMap[label]`, and append
an OutcomeRecord; ids already in the ledger are skipped.  `cls` is the active
classifier (extract + predict), `t` the move timestamp. -/
def processGo (cls : Message → Label) (t : Nat) :
    List Message → EngineState → EngineState × Counts
  | [], s => (s, Counts.mk 0 0 0)
  | m :: ms, s =>
    if inLedger s.ledger m.id then
      processGo cls t ms s
    else
      let lb := cls m
      let res := processGo cls t ms
        { mailbox := moveMsg m.id (folderMap lb) s.mailbox
          ledger := s.ledger ++ [OutcomeRecord.mk m.id lb (folderMap lb) t false] }
      (res.1, bump res.2 lb)

/-- Modelled from the spec: `Process(start-date)` runs `search-since`, then
drives every id not already in the Outcome Ledger through the pipeline,
returning the new state and the moved counts (spec section 4.4). -/
def process (d : Nat) (cls : Message → Label) (t : Nat) (s : EngineState) :
    EngineState × Counts :=
  processGo cls t (searchSince d s.mailbox) s

/-- Error taxonomy relevant to Promote (spec section 7). -/
inductive EngineError
  | invalidTransition
deriving DecidableEq, Repr

/-- Update the ledger record of `id` to a promoted record with the new label
and folder (spec section 4.4: the record is overwritten, not duplicated). -/
def promoteRecord (id : Nat) (lb : Label) (t : Nat)
    (l : List OutcomeRecord) : List OutcomeRecord :=
  l.map (fun r =>
    if r.messageId == id then
      { r with assignedLabel := lb, destinationFolder := folderMap lb,
               movedAt := t, promoted := true }
    else r)

/-- Modelled from the spec: `Promote(message-id, new-label)` drives
`MOVED(LOW) -> PROMOTED(new-label)` (spec section 4.4).  A message with no
record, or recorded `MOVED(HIGH|MEDIUM)`, fails with `InvalidTransition`.
Promoting an already-promoted message to the same label is a no-op success;
to a different label, the record is updated and the move performed again
(spec sections 4.4 and 8). -/
def promote (id : Nat) (lb : Label) (t : Nat) (s : EngineState) :
    Except EngineError EngineState :=
  match s.ledger.find? (fun r => r.messageId == id) with
  | none => Except.error EngineError.invalidTransition
  | some r =>
    if r.promoted && r.assignedLabel == lb then
      Except.ok s
    else if r.promoted || r.assignedLabel == Label.LOW then
      Except.ok
        { mailbox := moveMsg id (folderMap lb) s.mailbox
          ledger := promoteRecord id lb t s.ledger }
    else
      Except.error EngineError.invalidTransition

/-- An engine operation: one Process call (with the classifier active at that
time) or one Promote call. -/
inductive Op
  | process (d : Nat) (cls : Message → Label) (t : Nat)
  | promote (id : Nat) (lb : Label) (t : Nat)

/-- Apply one operation to the engine state; a failing Promote leaves the
state unchanged (spec section 7: `InvalidTransition` is surfaced as a user
error, not a state change). -/
def stepOp (s : EngineState) : Op → EngineState
  | Op.process d cls t => (process d cls t s).1
  | Op.promote id lb t =>
    match promote id lb t s with
    | Except.ok s' => s'
    | Except.error _ => s

/-- Run a finite sequence of Process/Promote operations. -/
def runOps (s : EngineState) (ops : List Op) : EngineState :=
  ops.foldl stepOp s

/-- The engine's initial state: a mailbox snapshot and an empty ledger. -/
def initState (mb : List Message) : EngineState :=
  EngineState.mk mb []

/-- The ledger's natural-key property: message-id appears at most once. -/
def ledgerKeyed (l : List OutcomeRecord) : Prop :=
  (l.map (fun r => r.messageId)).Nodup

/-- Folder consistency: every message the ledger records resides in the
folder its record names (spec section 3 invariant). -/
def consistent (s : EngineState) : Prop :=
  ∀ r ∈ s.ledger, ∀ m ∈ s.mailbox,
    m.id = r.messageId → m.currentFolder = r.destinationFolder

/-- A feature vector: the fixed-size numeric representation the Feature
Extractor produces (spec section 4.2). -/
def FeatureVector : Type := List ℚ

/-- Modelled from the spec: a ClassifierUnit, the feature transformer and
model weights as one versioned unit (spec section 3); the composed
transformer-plus-model is embedded as its input/output function. -/
structure ClassifierUnit where
  classify : FeatureVector → Label
  version : Nat

/-- Modelled from the spec: the Classifier Store, owning the single active
unit; empty (`none`) when never trained (spec sections 4.3 and 6). -/
structure ClassifierStore where
  active : Option ClassifierUnit

/-- Modelled from the spec: `predict(FeatureVector) -> Label`; when the
active unit is absent (never trained), returns the documented fallback
MEDIUM (spec section 4.3). -/
def predict (st : ClassifierStore) (fv : FeatureVector) : Label :=
  match st.active with
  | none => Label.MEDIUM
  | some u => u.classify fv

/-- A training sample `{message-id, subject, summary, label}`
(spec section 3). -/
structure TrainingSample where
  messageId : Nat
  subject : String
  summary : String
  label : Label

/-- The documented minimum number of samples for retraining
(spec section 8 gives 5 as the documented minimum). -/
def minSamples : Nat := 5

/-- Whether every sample carries the same label (the degenerate case of
spec section 4.3: nothing to learn). -/
def allSameLabel : List TrainingSample → Bool
  | [] => true
  | s :: rest => rest.all (fun s' => s'.label == s.label)

/-- Retraining error (spec section 7). -/
inductive TrainError
  | insufficientData
deriving DecidableEq, Repr

/-- Modelled from the spec: `retrain(sequence of TrainingSample)` fails with
`InsufficientData` if fewer than the minimum number of samples or if all
samples share one label; on success it builds a new transformer+model pair
from scratch (spec section 4.3).  The fitting procedure itself is not
specified, so it is passed in as `fit`. -/
def retrain (fit : List TrainingSample → ClassifierUnit)
    (samples : List TrainingSample) : Except TrainError ClassifierUnit :=
  if samples.length < minSamples then
    Except.error TrainError.insufficientData
  else if allSameLabel samples then
    Except.error TrainError.insufficientData
  else
    Except.ok (fit samples)

/-- Modelled from the spec: the retrain-then-activate cycle; on error the
previously active unit is left unchanged and keeps serving
(spec sections 4.3 and 8). -/
def retrainActivate (fit : List TrainingSample → ClassifierUnit)
    (st : ClassifierStore) (samples : List TrainingSample) :
    ClassifierStore × Option TrainError :=
  match retrain fit samples with
  | Except.error e => (st, some e)
  | Except.ok u => (ClassifierStore.mk (some u), none)

/-!
Shallow embedding of the dashboard, `src/frontend/main.js`.
-/

/-- Digit-string value, radix 10. -/
def digitsVal (s : String) : Nat :=
  s.foldl (fun n c => n * 10 + (c.toNat - 48)) 0

/-- JavaScript `parseInt(s, 10)`: trim whitespace, optional sign, then the
longest decimal-digit prefix; `none` models `NaN` (no digits). -/
def parseIntJs (s : String) : Option Int :=
  let t := s.trim
  let sign : Int := if t.startsWith "-" then -1 else 1
  let rest := if t.startsWith "-" || t.startsWith "+" then t.drop 1 else t
  let digits := rest.takeWhile Char.isDigit
  if digits.isEmpty then none
  else some (sign * (digitsVal digits : Int))

/-- JavaScript falsiness of the parsed limit: `!limit` holds for `NaN` and
for `0` (main.js line 85). -/
def jsFalsy : Option Int → Bool
  | none => true
  | some n => n == 0

/-- JavaScript `limit < 1` where `limit` may be `NaN`: any comparison with
`NaN` is false (main.js line 85). -/
def jsLtOne : Option Int → Bool
  | none => false
  | some n => decide (n < 1)

/-- Outcome of the Train button handler: either a validation message is
shown, or a `/api/train` request is issued. -/
inductive TrainAction
  | showValidation (text : String)
  | sendRequest (start_date : String) (limit : Int)
deriving DecidableEq, Repr

/-- The `btn-train` click handler (main.js lines 74-91): reads the date and
limit fields, parses the limit with `parseInt(value || "0", 10)`, and issues
the request only past the guard `!startDate || !limit || limit < 1`. -/
def trainClick (startDate limitRaw : String) : TrainAction :=
  let limit := parseIntJs (if limitRaw = "" then "0" else limitRaw)
  if startDate == "" || jsFalsy limit || jsLtOne limit then
    TrainAction.showValidation "Provide a valid date and positive sample count."
  else
    TrainAction.sendRequest startDate (limit.getD 0)

/-- An item of the Recovery view response (main.js lines 189-208). -/
structure RecoveryItem where
  email_id : String
  subject : String
  summary : String
  gmail_link : String
deriving DecidableEq, Repr

/-- A rendered promote button: its `data-id` and `data-to` attributes. -/
structure PromoteButton where
  dataId : String
  dataTo : String
deriving DecidableEq, Repr

/-- The promote controls the Recovery view renders for one item
(main.js lines 202-205): exactly two buttons, `data-to="HIGH"` and
`data-to="MEDIUM"`, both carrying the item's `email_id`. -/
def recoveryButtons (item : RecoveryItem) : List PromoteButton :=
  [PromoteButton.mk item.email_id "HIGH", PromoteButton.mk item.email_id "MEDIUM"]

/-- The `/api/promote` request body (main.js line 215). -/
structure PromotePayload where
  email_id : String
  new_priority : String
deriving DecidableEq, Repr

/-- The promote button click handler (main.js lines 210-223): the payload is
built verbatim from the button's `data-id` and `data-to` attributes. -/
def promoteClickPayload (b : PromoteButton) : PromotePayload :=
  PromotePayload.mk b.dataId b.dataTo

/-- The counts object passed to `renderCountsChart`; each key may be absent,
since main.js line 152 falls back to an empty object when `moved_counts` is
missing. -/
structure JsCounts where
  high : Option ℚ
  medium : Option ℚ
  low : Option ℚ

/-- `counts[k] || 0`: a missing key defaults to 0 (main.js lines 27, 38). -/
def jsOrZero (v : Option ℚ) : ℚ := v.getD 0

/-- `Math.max(1, ...keys.map(k => counts[k] || 0))` (main.js line 27). -/
def maxVal (c : JsCounts) : ℚ :=
  max 1 (max (jsOrZero c.high) (max (jsOrZero c.medium) (jsOrZero c.low)))

/-- The bar height `Math.round((val / maxVal) * (H - 120))` for one key
(main.js line 40); `H` is the integer canvas height. -/
def barHeight (H : ℤ) (c : JsCounts) (v : Option ℚ) : ℤ :=
  round (jsOrZero v / maxVal c * ((H : ℚ) - 120))

/-!
Helper lemmas about the Outcome Ledger and the Process/Promote operations.
-/

theorem inLedger_iff_mem_keys (l : List OutcomeRecord) (i : Nat) :
    inLedger l i = true ↔ i ∈ l.map (fun r => r.messageId) := by
  unfold inLedger
  rw [List.any_eq_true]
  constructor
  · rintro ⟨r, hr, hb⟩
    exact List.mem_map.mpr ⟨r, hr, beq_iff_eq.mp hb⟩
  · intro h
    rcases List.mem_map.mp h with ⟨r, hr, heq⟩
    exact ⟨r, hr, by simp [heq]⟩

theorem inLedger_append_left (l l' : List OutcomeRecord) (i : Nat)
    (h : inLedger l i = true) : inLedger (l ++ l') i = true := by
  simp only [inLedger, List.any_append, Bool.or_eq_true]
  exact Or.inl h

theorem moveMsg_cases (id : Nat) (dest : String) (mb : List Message)
    (m' : Message) (h : m' ∈ moveMsg id dest mb) :
    (m'.id = id ∧ m'.currentFolder = dest) ∨ (m' ∈ mb ∧ m'.id ≠ id) := by
  unfold moveMsg at h
  rcases List.mem_map.mp h with ⟨m0, hm0, heq⟩
  by_cases hid : (m0.id == id) = true
  · left
    have hid' : m0.id = id := beq_iff_eq.mp hid
    rw [if_pos hid] at heq
    subst heq
    exact ⟨hid', rfl⟩
  · right
    rw [if_neg hid] at heq
    subst heq
    exact ⟨hm0, fun hc => hid (by simp [hc])⟩

theorem moveMsg_keys (id : Nat) (dest : String) (mb : List Message)
    (m' : Message) (h : m' ∈ moveMsg id dest mb) :
    ∃ m ∈ mb, m.id = m'.id ∧ m.receivedAt = m'.receivedAt := by
  unfold moveMsg at h
  rcases List.mem_map.mp h with ⟨m0, hm0, heq⟩
  refine ⟨m0, hm0, ?_⟩
  subst heq
  by_cases hid : (m0.id == id) = true
  · rw [if_pos hid]
    exact ⟨rfl, rfl⟩
  · rw [if_neg hid]
    exact ⟨rfl, rfl⟩

theorem processGo_ledger_ext (cls : Message → Label) (t : Nat)
    (ms : List Message) (s : EngineState) :
    ∃ ext, ((processGo cls t ms s).1).ledger = s.ledger ++ ext := by
  induction ms generalizing s with
  | nil => exact ⟨[], by simp [processGo]⟩
  | cons m ms ih =>
    by_cases h : inLedger s.ledger m.id = true
    · rw [processGo, if_pos h]
      exact ih s
    · rw [processGo, if_neg h]
      rcases ih { mailbox := moveMsg m.id (folderMap (cls m)) s.mailbox
                  ledger := s.ledger ++
                    [OutcomeRecord.mk m.id (cls m) (folderMap (cls m)) t false] }
        with ⟨ext, hext⟩
      refine ⟨OutcomeRecord.mk m.id (cls m) (folderMap (cls m)) t false :: ext,
        ?_⟩
      simpa [List.append_assoc] using hext

theorem processGo_inLedger_mono (cls : Message → Label) (t : Nat)
    (ms : List Message) (s : EngineState) (i : Nat)
    (h : inLedger s.ledger i = true) :
    inLedger ((processGo cls t ms s).1).ledger i = true := by
  rcases processGo_ledger_ext cls t ms s with ⟨ext, hext⟩
  rw [hext]
  exact inLedger_append_left _ _ _ h

theorem processGo_mem_inLedger (cls : Message → Label) (t : Nat)
    (ms : List Message) (s : EngineState) (m : Message) (hm : m ∈ ms) :
    inLedger ((processGo cls t ms s).1).ledger m.id = true := by
  induction ms generalizing s with
  | nil => cases hm
  | cons m0 ms ih =>
    by_cases h : inLedger s.ledger m0.id = true
    · rw [processGo, if_pos h]
      rcases List.mem_cons.mp hm with hm | hm
      · rw [hm]
        exact processGo_inLedger_mono cls t ms s m0.id h
      · exact ih s hm
    · rw [processGo, if_neg h]
      rcases List.mem_cons.mp hm with hm | hm
      · rw [hm]
        apply processGo_inLedger_mono
        simp [inLedger, List.any_append]
      · exact ih _ hm

theorem processGo_skip_all (cls : Message → Label) (t : Nat)
    (ms : List Message) (s : EngineState)
    (h : ∀ m ∈ ms, inLedger s.ledger m.id = true) :
    processGo cls t ms s = (s, Counts.mk 0 0 0) := by
  induction ms with
  | nil => rfl
  | cons m ms ih =>
    rw [processGo, if_pos (h m (List.mem_cons_self m ms))]
    exact ih (fun m' hm' => h m' (List.mem_cons_of_mem m hm'))

theorem processGo_mailbox_keys (cls : Message → Label) (t : Nat)
    (ms : List Message) (s : EngineState) (m' : Message)
    (h : m' ∈ ((processGo cls t ms s).1).mailbox) :
    ∃ m ∈ s.mailbox, m.id = m'.id ∧ m.receivedAt = m'.receivedAt := by
  induction ms generalizing s with
  | nil =>
    exact ⟨m', by simpa [processGo] using h, rfl, rfl⟩
  | cons m0 ms ih =>
    by_cases hc : inLedger s.ledger m0.id = true
    · rw [processGo, if_pos hc] at h
      exact ih s h
    · rw [processGo, if_neg hc] at h
      rcases ih _ h with ⟨m1, hm1, hid, hra⟩
      rcases moveMsg_keys m0.id (folderMap (cls m0)) s.mailbox m1 hm1
        with ⟨m2, hm2, hid2, hra2⟩
      exact ⟨m2, hm2, hid2.trans hid, hra2.trans hra⟩

theorem processGo_keyed (cls : Message → Label) (t : Nat)
    (ms : List Message) (s : EngineState) (h : ledgerKeyed s.ledger) :
    ledgerKeyed ((processGo cls t ms s).1).ledger := by
  induction ms generalizing s with
  | nil => simpa [processGo] using h
  | cons m ms ih =>
    by_cases hc : inLedger s.ledger m.id = true
    · rw [processGo, if_pos hc]
      exact ih s h
    · rw [processGo, if_neg hc]
      apply ih
      unfold ledgerKeyed at h ⊢
      rw [List.map_append, List.nodup_append]
      refine ⟨h, List.nodup_singleton _, ?_⟩
      intro i hi hi'
      simp only [List.map_cons, List.map_nil, List.mem_singleton] at hi'
      subst hi'
      exact hc ((inLedger_iff_mem_keys s.ledger m.id).mpr hi)

theorem processGo_consistent (cls : Message → Label) (t : Nat)
    (ms : List Message) (s : EngineState)
    (hk : ledgerKeyed s.ledger) (h : consistent s) :
    consistent (processGo cls t ms s).1 := by
  induction ms generalizing s with
  | nil => simpa [processGo] using h
  | cons m ms ih =>
    by_cases hc : inLedger s.ledger m.id = true
    · rw [processGo, if_pos hc]
      exact ih s hk h
    · rw [processGo, if_neg hc]
      apply ih
      · unfold ledgerKeyed at hk ⊢
        rw [List.map_append, List.nodup_append]
        refine ⟨hk, List.nodup_singleton _, ?_⟩
        intro i hi hi'
        simp only [List.map_cons, List.map_nil, List.mem_singleton] at hi'
        subst hi'
        exact hc ((inLedger_iff_mem_keys s.ledger m.id).mpr hi)
      · intro r hr m' hm' hid
        rcases List.mem_append.mp hr with hr | hr
        · rcases moveMsg_cases m.id (folderMap (cls m)) s.mailbox m' hm'
            with ⟨hid', _⟩ | ⟨hmem, hid'⟩
          · exfalso
            apply hc
            apply (inLedger_iff_mem_keys s.ledger m.id).mpr
            rw [← hid', hid]
            exact List.mem_map.mpr ⟨r, hr, rfl⟩
          · exact h r hr m' hmem hid
        · simp only [List.mem_singleton] at hr
          subst hr
          rcases moveMsg_cases m.id (folderMap (cls m)) s.mailbox m' hm'
            with ⟨_, hf⟩ | ⟨_, hid'⟩
          · exact hf
          · exact absurd hid hid'

theorem promoteRecord_keys (id : Nat) (lb : Label) (t : Nat)
    (l : List OutcomeRecord) :
    (promoteRecord id lb t l).map (fun r => r.messageId) =
      l.map (fun r => r.messageId) := by
  induction l with
  | nil => rfl
  | cons r rest ih =>
    unfold promoteRecord at ih ⊢
    rw [List.map_cons, List.map_cons, List.map_cons, ih]
    by_cases h : (r.messageId == id) = true
    · rw [if_pos h]
    · rw [if_neg h]

theorem promoteRecord_cases (id : Nat) (lb : Label) (t : Nat)
    (l : List OutcomeRecord) (r' : OutcomeRecord)
    (h : r' ∈ promoteRecord id lb t l) :
    (r'.messageId = id ∧ r'.assignedLabel = lb ∧
      r'.destinationFolder = folderMap lb ∧ r'.promoted = true) ∨
    (r' ∈ l ∧ r'.messageId ≠ id) := by
  unfold promoteRecord at h
  rcases List.mem_map.mp h with ⟨r0, hr0, heq⟩
  by_cases hid : (r0.messageId == id) = true
  · left
    have hid' : r0.messageId = id := beq_iff_eq.mp hid
    rw [if_pos hid] at heq
    subst heq
    exact ⟨hid', rfl, rfl, rfl⟩
  · right
    rw [if_neg hid] at heq
    subst heq
    exact ⟨hr0, fun hc => hid (by simp [hc])⟩

theorem promote_ok_cases (id : Nat) (lb : Label) (t : Nat) (s s' : EngineState)
    (h : promote id lb t s = Except.ok s') :
    s' = s ∨
    s' = EngineState.mk (moveMsg id (folderMap lb) s.mailbox)
      (promoteRecord id lb t s.ledger) := by
  unfold promote at h
  split at h
  · cases h
  · split at h
    · exact Or.inl (Except.ok.inj h).symm
    · split at h
      · exact Or.inr (Except.ok.inj h).symm
      · cases h

theorem promote_keyed (id : Nat) (lb : Label) (t : Nat) (s s' : EngineState)
    (h : promote id lb t s = Except.ok s') (hk : ledgerKeyed s.ledger) :
    ledgerKeyed s'.ledger := by
  rcases promote_ok_cases id lb t s s' h with h' | h'
  · rw [h']
    exact hk
  · rw [h']
    unfold ledgerKeyed at hk ⊢
    rw [promoteRecord_keys]
    exact hk

theorem promote_consistent (id : Nat) (lb : Label) (t : Nat)
    (s s' : EngineState) (h : promote id lb t s = Except.ok s')
    (hc : consistent s) : consistent s' := by
  rcases promote_ok_cases id lb t s s' h with h' | h'
  · rw [h']
    exact hc
  · rw [h']
    intro r hr m hm hid
    rcases promoteRecord_cases id lb t s.ledger r hr
      with ⟨hrid, _, hrf, _⟩ | ⟨hrmem, hrid⟩
    · rcases moveMsg_cases id (folderMap lb) s.mailbox m hm
        with ⟨_, hmf⟩ | ⟨_, hmid⟩
      · rw [hmf, hrf]
      · exact absurd (hid.trans hrid) hmid
    · rcases moveMsg_cases id (folderMap lb) s.mailbox m hm
        with ⟨hmid, _⟩ | ⟨hmmem, _⟩
      · exact absurd (hmid ▸ hid).symm hrid
      · exact hc r hrmem m hmmem hid

/-- The combined ledger invariant: at most one record per message id, and
every recorded message resides in its record's folder. -/
def engineInv (s : EngineState) : Prop :=
  ledgerKeyed s.ledger ∧ consistent s

theorem stepOp_inv (s : EngineState) (op : Op) (h : engineInv s) :
    engineInv (stepOp s op) := by
  rcases op with ⟨d, cls, t⟩ | ⟨id, lb, t⟩
  · exact ⟨processGo_keyed cls t _ s h.1, processGo_consistent cls t _ s h.1 h.2⟩
  · rcases hp : promote id lb t s with e | s'
    · have hs : stepOp s (Op.promote id lb t) = s := by
        show (match promote id lb t s with
          | Except.ok s' => s'
          | Except.error _ => s) = s
        rw [hp]
      rw [hs]
      exact h
    · have hs : stepOp s (Op.promote id lb t) = s' := by
        show (match promote id lb t s with
          | Except.ok s' => s'
          | Except.error _ => s) = s'
        rw [hp]
      rw [hs]
      exact ⟨promote_keyed id lb t s s' hp h.1,
        promote_consistent id lb t s s' hp h.2⟩

theorem runOps_inv (ops : List Op) (s : EngineState) (h : engineInv s) :
    engineInv (runOps s ops) := by
  induction ops generalizing s with
  | nil => exact h
  | cons op ops ih => exact ih (stepOp s op) (stepOp_inv s op h)

theorem promote_find_none (id : Nat) (lb : Label) (t : Nat) (s : EngineState)
    (hf : s.ledger.find? (fun r => r.messageId == id) = none) :
    promote id lb t s = Except.error EngineError.invalidTransition := by
  unfold promote
  rw [hf]

theorem promote_find_some (id : Nat) (lb : Label) (t : Nat) (s : EngineState)
    (r : OutcomeRecord)
    (hf : s.ledger.find? (fun r => r.messageId == id) = some r) :
    promote id lb t s =
      if (r.promoted && r.assignedLabel == lb) = true then
        Except.ok s
      else if (r.promoted || r.assignedLabel == Label.LOW) = true then
        Except.ok (EngineState.mk (moveMsg id (folderMap lb) s.mailbox)
          (promoteRecord id lb t s.ledger))
      else
        Except.error EngineError.invalidTransition := by
  unfold promote
  rw [hf]

/-!
Theorems about the Triage Engine.
-/

/-- C1: after any finite sequence of Process and Promote operations from a
fresh ledger, every message id has at most one OutcomeRecord (message-id is
the natural key), and every message that passed through Process — that is,
every message the ledger records — resides in the folder its unique record
names. -/
theorem outcome_ledger_invariant (mb : List Message) (ops : List Op) :
    ledgerKeyed (runOps (initState mb) ops).ledger ∧
    (∀ r ∈ (runOps (initState mb) ops).ledger,
      ∀ r' ∈ (runOps (initState mb) ops).ledger,
        r.messageId = r'.messageId → r = r') ∧
    consistent (runOps (initState mb) ops) := by
  have h0 : engineInv (initState mb) := by
    constructor
    · simp [ledgerKeyed, initState]
    · intro r hr
      exact absurd hr (List.not_mem_nil r)
  have h := runOps_inv ops (initState mb) h0
  exact ⟨h.1, fun r hr r' hr' heq => List.inj_on_of_nodup_map h.1 hr hr' heq,
    h.2⟩

/-- C2: Process is idempotent with respect to the Outcome Ledger: a second
Process call with the same start-date on an otherwise unchanged mailbox
skips every id already in the ledger, changes nothing, and reports moved
counts of zero — for any classifier and timestamp the second call runs
with. -/
theorem process_idempotent (d : Nat) (cls cls' : Message → Label) (t t' : Nat)
    (s : EngineState) :
    process d cls' t' (process d cls t s).1 =
      ((process d cls t s).1, Counts.mk 0 0 0) := by
  unfold process
  apply processGo_skip_all
  intro m2 hm2
  have hmem : m2 ∈ (process d cls t s).1.mailbox ∧ d ≤ m2.receivedAt := by
    simpa [searchSince, List.mem_filter] using hm2
  rcases processGo_mailbox_keys cls t (searchSince d s.mailbox) s m2 hmem.1
    with ⟨m, hm, hid, hra⟩
  have hcand : m ∈ searchSince d s.mailbox := by
    simp only [searchSince, List.mem_filter, decide_eq_true_eq]
    exact ⟨hm, by rw [hra]; exact hmem.2⟩
  have hin := processGo_mem_inLedger cls t (searchSince d s.mailbox) s m hcand
  rw [hid] at hin
  exact hin

/-- C3: Promote is idempotent: if the ledger's record for `id` is already
promoted with label `lb`, promoting to `lb` again is a no-op success (state
unchanged); promoting to a different label `lb'` succeeds, updates the
record to `lb'` with folder `FolderMap[lb']`, and moves the message there
again. -/
theorem promote_idempotent (s : EngineState) (id : Nat) (lb lb' : Label)
    (t t' : Nat) (r : OutcomeRecord)
    (hf : s.ledger.find? (fun r => r.messageId == id) = some r)
    (hp : r.promoted = true) (hl : r.assignedLabel = lb) :
    promote id lb t s = Except.ok s ∧
    (lb' ≠ lb → ∃ s', promote id lb' t' s = Except.ok s' ∧
      (∀ r' ∈ s'.ledger, r'.messageId = id →
        r'.assignedLabel = lb' ∧ r'.destinationFolder = folderMap lb' ∧
        r'.promoted = true) ∧
      (∀ m ∈ s'.mailbox, m.id = id → m.currentFolder = folderMap lb')) := by
  constructor
  · rw [promote_find_some id lb t s r hf]
    have hcond : (r.promoted && r.assignedLabel == lb) = true := by
      simp [hp, hl]
    rw [if_pos hcond]
  · intro hne
    refine ⟨EngineState.mk (moveMsg id (folderMap lb') s.mailbox)
      (promoteRecord id lb' t' s.ledger), ?_, ?_, ?_⟩
    · rw [promote_find_some id lb' t' s r hf]
      have hcond1 : ¬((r.promoted && r.assignedLabel == lb') = true) := by
        rw [hp, hl]
        simp only [Bool.true_and, beq_iff_eq]
        exact fun hc => hne hc.symm
      have hcond2 : (r.promoted || r.assignedLabel == Label.LOW) = true := by
        simp [hp]
      rw [if_neg hcond1, if_pos hcond2]
    · intro r' hr' hid
      rcases promoteRecord_cases id lb' t' s.ledger r' hr'
        with ⟨_, h2, h3, h4⟩ | ⟨_, hnid⟩
      · exact ⟨h2, h3, h4⟩
      · exact absurd hid hnid
    · intro m hm hid
      rcases moveMsg_cases id (folderMap lb') s.mailbox m hm
        with ⟨_, hfold⟩ | ⟨_, hnid⟩
      · exact hfold
      · exact absurd hid hnid

/-- A concrete state for the C3 witness: one message, already promoted to
HIGH. -/
def wState : EngineState :=
  EngineState.mk [Message.mk 1 "Invoice" "pay now" 5 "AI_HIGH_PRIORITY"]
    [OutcomeRecord.mk 1 Label.HIGH "AI_HIGH_PRIORITY" 4 true]

/-- C3 witness: re-promoting the already-promoted message of `wState` to the
same label is a no-op success. -/
theorem promote_idempotent_witness :
    promote 1 Label.HIGH 6 wState = Except.ok wState :=
  (promote_idempotent wState 1 Label.HIGH Label.MEDIUM 6 7
    (OutcomeRecord.mk 1 Label.HIGH "AI_HIGH_PRIORITY" 4 true)
    (by decide) (by decide) (by decide)).1

/-- The mailbox of the C4 counterexample: a single LOW-classified
newsletter. -/
def cexMailbox : List Message :=
  [Message.mk 1 "Newsletter" "weekly digest" 10 "INBOX"]

/-- The C4 counterexample state: the message is processed to LOW and then
promoted to HIGH, so its record no longer carries label LOW. -/
def cexState : EngineState :=
  runOps (initState cexMailbox)
    [Op.process 0 (fun _ => Label.LOW) 1, Op.promote 1 Label.HIGH 2]

/-- C4 counterexample: in the reachable state `cexState` the record of
message 1 does not carry label LOW, yet `Promote(1, HIGH)` succeeds (as the
spec's idempotence clause requires) instead of failing with
`InvalidTransition` — so the claim as stated is false. -/
theorem promote_nonlow_cex :
    (∀ r ∈ cexState.ledger, r.assignedLabel ≠ Label.LOW) ∧
    cexState.ledger ≠ [] ∧
    promote 1 Label.HIGH 3 cexState = Except.ok cexState :=
  ⟨by decide, by decide, by rfl⟩

/-- C4 (amended): Promote fails with `InvalidTransition` and leaves the
state unchanged whenever the target id has no OutcomeRecord, or its record
is an unpromoted record whose label is not LOW; records carrying LOW, or
written by a prior Promote, accept further Promote calls. -/
theorem promote_invalid_transition (s : EngineState) (id : Nat) (lb : Label)
    (t : Nat)
    (h : s.ledger.find? (fun r => r.messageId == id) = none ∨
      ∃ r, s.ledger.find? (fun r => r.messageId == id) = some r ∧
        r.promoted = false ∧ r.assignedLabel ≠ Label.LOW) :
    promote id lb t s = Except.error EngineError.invalidTransition ∧
    stepOp s (Op.promote id lb t) = s := by
  have hmain : promote id lb t s =
      Except.error EngineError.invalidTransition := by
    rcases h with h | ⟨r, hf, hpr, hlab⟩
    · exact promote_find_none id lb t s h
    · rw [promote_find_some id lb t s r hf]
      have h1 : ¬((r.promoted && r.assignedLabel == lb) = true) := by
        simp [hpr]
      have h2 : ¬((r.promoted || r.assignedLabel == Label.LOW) = true) := by
        simp [hpr, hlab]
      rw [if_neg h1, if_neg h2]
  refine ⟨hmain, ?_⟩
  show (match promote id lb t s with
    | Except.ok s' => s'
    | Except.error _ => s) = s
  rw [hmain]

/-- C4 witness: promoting an id with no record fails and changes nothing. -/
theorem promote_invalid_transition_witness :
    promote 3 Label.HIGH 0 (initState []) =
      Except.error EngineError.invalidTransition ∧
    stepOp (initState []) (Op.promote 3 Label.HIGH 0) = initState [] :=
  promote_invalid_transition (initState []) 3 Label.HIGH 0 (Or.inl (by decide))

/-- C8: the Train handler issues no request when the start date is empty or
the parsed limit is missing, NaN, zero or below 1; it shows the validation
message instead, and a request is issued only with a nonempty date and a
parsed limit of at least 1. -/
theorem train_click_validates (sd lr : String) :
    (∀ d n, trainClick sd lr = TrainAction.sendRequest d n →
      d = sd ∧ sd ≠ "" ∧ 1 ≤ n ∧
      parseIntJs (if lr = "" then "0" else lr) = some n) ∧
    ((sd = "" ∨ parseIntJs (if lr = "" then "0" else lr) = none ∨
        (∃ n, parseIntJs (if lr = "" then "0" else lr) = some n ∧ n < 1)) →
      trainClick sd lr =
        TrainAction.showValidation
          "Provide a valid date and positive sample count.") := by
  constructor
  · intro d n h
    unfold trainClick at h
    rcases hp : parseIntJs (if lr = "" then "0" else lr) with _ | m
    · rw [hp] at h
      simp [jsFalsy] at h
    · rw [hp] at h
      by_cases hsd : sd = ""
      · simp [hsd] at h
      · by_cases hm : m < 1
        · have : jsLtOne (some m) = true := by simp [jsLtOne, hm]
          simp [this] at h
        · have h0 : jsFalsy (some m) = false := by
            simp [jsFalsy]
            omega
          have h1 : jsLtOne (some m) = false := by simp [jsLtOne, hm]
          simp [hsd, h0, h1] at h
          refine ⟨h.1.symm, hsd, ?_, ?_⟩
          · omega
          · rw [h.2]
  · intro hbad
    unfold trainClick
    rcases hp : parseIntJs (if lr = "" then "0" else lr) with _ | m
    · simp [jsFalsy]
    · rcases hbad with hsd | hnone | ⟨n, hn, hlt⟩
      · simp [hsd]
      · rw [hp] at hnone
        exact absurd hnone (by simp)
      · rw [hp] at hn
        have hm : m < 1 := by
          have : m = n := by injection hn
          omega
        have : jsLtOne (some m) = true := by simp [jsLtOne, hm]
        simp [this]

/-- C8 witness: with an empty start date the handler shows the validation
message and sends nothing. -/
theorem train_click_validates_witness :
    trainClick "" "5" =
      TrainAction.showValidation
        "Provide a valid date and positive sample count." :=
  (train_click_validates "" "5").2 (Or.inl rfl)

/-- C9: every promote control the Recovery view renders carries `data-to`
HIGH or MEDIUM, and the `/api/promote` payload takes `new_priority` verbatim
from that attribute and `email_id` from the item, so no payload with
`new_priority = "LOW"` (or any other value) can be produced. -/
theorem promote_payload_priorities (item : RecoveryItem) (b : PromoteButton)
    (hb : b ∈ recoveryButtons item) :
    (promoteClickPayload b).email_id = item.email_id ∧
    ((promoteClickPayload b).new_priority = "HIGH" ∨
      (promoteClickPayload b).new_priority = "MEDIUM") ∧
    (promoteClickPayload b).new_priority ≠ "LOW" := by
  simp only [recoveryButtons, List.mem_cons, List.mem_singleton,
    List.not_mem_nil, or_false] at hb
  rcases hb with hb | hb
  · subst hb
    exact ⟨rfl, Or.inl rfl, by simp [promoteClickPayload]⟩
  · subst hb
    exact ⟨rfl, Or.inr rfl, by simp [promoteClickPayload]⟩

/-- C9 witness: the theorem applied to the first button of a concrete
recovery item. -/
theorem promote_payload_priorities_witness :
    (promoteClickPayload (PromoteButton.mk "msg7" "HIGH")).email_id = "msg7" ∧
    ((promoteClickPayload (PromoteButton.mk "msg7" "HIGH")).new_priority = "HIGH" ∨
      (promoteClickPayload (PromoteButton.mk "msg7" "HIGH")).new_priority = "MEDIUM") ∧
    (promoteClickPayload (PromoteButton.mk "msg7" "HIGH")).new_priority ≠ "LOW" :=
  promote_payload_priorities (RecoveryItem.mk "msg7" "s" "sum" "link")
    (PromoteButton.mk "msg7" "HIGH") (by simp [recoveryButtons])

/-- The divisor of the chart's bar-height computation is at least 1 for every
counts input. -/
theorem one_le_maxVal (c : JsCounts) : 1 ≤ maxVal c :=
  le_max_left 1 _

/-- C10: `renderCountsChart` geometry is bounded: the divisor `maxVal` is at
least 1 (so the bar-height computation never divides by zero), and for
non-negative counts and a canvas height of at least 120 every bar height lies
between 0 and `H - 120`. -/
theorem render_counts_chart_bounded (c : JsCounts) (H : ℤ)
    (hH : 120 ≤ H)
    (hh : 0 ≤ jsOrZero c.high) (hm : 0 ≤ jsOrZero c.medium)
    (hl : 0 ≤ jsOrZero c.low) :
    1 ≤ maxVal c ∧
    ∀ v ∈ [c.high, c.medium, c.low],
      0 ≤ barHeight H c v ∧ barHeight H c v ≤ H - 120 := by
  have hmax1 : (1 : ℚ) ≤ maxVal c := one_le_maxVal c
  have hmaxpos : (0 : ℚ) < maxVal c := lt_of_lt_of_le one_pos hmax1
  refine ⟨hmax1, ?_⟩
  intro v hv
  simp only [List.mem_cons, List.mem_singleton, List.not_mem_nil,
    or_false] at hv
  have hvnn : 0 ≤ jsOrZero v := by
    rcases hv with hv | hv | hv
    · rwa [hv]
    · rwa [hv]
    · rwa [hv]
  have hvle : jsOrZero v ≤ maxVal c := by
    rcases hv with hv | hv | hv
    · rw [hv]
      exact le_trans (le_max_left _ _) (le_max_right _ _)
    · rw [hv]
      exact le_trans (le_trans (le_max_left _ _) (le_max_right _ _))
        (le_max_right _ _)
    · rw [hv]
      exact le_trans (le_trans (le_max_right _ _) (le_max_right _ _))
        (le_max_right _ _)
  have hq0 : 0 ≤ jsOrZero v / maxVal c := div_nonneg hvnn hmaxpos.le
  have hq1 : jsOrZero v / maxVal c ≤ 1 := (div_le_one hmaxpos).mpr hvle
  have hHnn : (0 : ℚ) ≤ (H : ℚ) - 120 := by
    have : (120 : ℚ) ≤ (H : ℚ) := by exact_mod_cast hH
    linarith
  have hx0 : 0 ≤ jsOrZero v / maxVal c * ((H : ℚ) - 120) :=
    mul_nonneg hq0 hHnn
  have hx1 : jsOrZero v / maxVal c * ((H : ℚ) - 120) ≤ (H : ℚ) - 120 :=
    mul_le_of_le_one_left hHnn hq1
  constructor
  · unfold barHeight
    rw [round_eq]
    have : (0 : ℚ) ≤ jsOrZero v / maxVal c * ((H : ℚ) - 120) + 1 / 2 := by
      linarith
    exact Int.floor_nonneg.mpr this
  · unfold barHeight
    rw [round_eq]
    have hcast : ((H - 120 : ℤ) : ℚ) = (H : ℚ) - 120 := by push_cast; ring
    have hle : jsOrZero v / maxVal c * ((H : ℚ) - 120) + 1 / 2 ≤
        ((H - 120 : ℤ) : ℚ) + 1 / 2 := by
      rw [hcast]
      linarith
    calc ⌊jsOrZero v / maxVal c * ((H : ℚ) - 120) + 1 / 2⌋
        ≤ ⌊((H - 120 : ℤ) : ℚ) + 1 / 2⌋ := Int.floor_mono hle
      _ = H - 120 := by
          rw [add_comm, Int.floor_add_int]
          norm_num

/-- C5: `predict` is total on feature vectors — every call returns a Label —
and when no unit is active (never trained) it returns the documented
fallback MEDIUM rather than failing. -/
theorem predict_total_fallback :
    (∀ (st : ClassifierStore) (fv : FeatureVector),
      ∃ lb : Label, predict st fv = lb) ∧
    (∀ fv : FeatureVector, predict (ClassifierStore.mk none) fv =
      Label.MEDIUM) := by
  constructor
  · intro st fv
    exact ⟨predict st fv, rfl⟩
  · intro fv
    rfl

/-- C6: `retrain` returns `InsufficientData` exactly when the sample
sequence is shorter than the documented minimum or all samples share one
label, and in that case the previously active unit is left unchanged by the
retrain-activate cycle. -/
theorem retrain_insufficient_data (fit : List TrainingSample → ClassifierUnit)
    (samples : List TrainingSample) :
    (retrain fit samples = Except.error TrainError.insufficientData ↔
      samples.length < minSamples ∨ allSameLabel samples = true) ∧
    (∀ st : ClassifierStore,
      (samples.length < minSamples ∨ allSameLabel samples = true) →
      retrainActivate fit st samples =
        (st, some TrainError.insufficientData)) := by
  have hchar : retrain fit samples = Except.error TrainError.insufficientData ↔
      samples.length < minSamples ∨ allSameLabel samples = true := by
    unfold retrain
    by_cases h1 : samples.length < minSamples
    · simp [h1]
    · by_cases h2 : allSameLabel samples = true
      · simp [h1, h2]
      · simp [h1, h2]
  refine ⟨hchar, ?_⟩
  intro st hcond
  unfold retrainActivate
  rw [hchar.mpr hcond]

/-- C6 witness: two samples (below the minimum of 5) leave a concrete store
unchanged and surface `InsufficientData`. -/
theorem retrain_insufficient_data_witness :
    retrainActivate (fun _ => ClassifierUnit.mk (fun _ => Label.LOW) 1)
        (ClassifierStore.mk none)
        [TrainingSample.mk 1 "a" "b" Label.HIGH,
         TrainingSample.mk 2 "c" "d" Label.LOW] =
      (ClassifierStore.mk none, some TrainError.insufficientData) :=
  (retrain_insufficient_data (fun _ => ClassifierUnit.mk (fun _ => Label.LOW) 1)
      [TrainingSample.mk 1 "a" "b" Label.HIGH,
       TrainingSample.mk 2 "c" "d" Label.LOW]).2
    (ClassifierStore.mk none) (Or.inl (by decide))

/-- C10 witness: the bound at a concrete counts object (one key missing) and
a 400-pixel canvas. -/
theorem render_counts_chart_bounded_witness :
    1 ≤ maxVal (JsCounts.mk (some 3) none (some 0)) ∧
    ∀ v ∈ [some (3 : ℚ), none, some 0],
      0 ≤ barHeight 400 (JsCounts.mk (some 3) none (some 0)) v ∧
      barHeight 400 (JsCounts.mk (some 3) none (some 0)) v ≤ 400 - 120 :=
  render_counts_chart_bounded (JsCounts.mk (some 3) none (some 0)) 400
    (by decide) (by norm_num [jsOrZero]) (by norm_num [jsOrZero])
    (by norm_num [jsOrZero])

end MailSort
